import Mathlib

/-!
Verification of the spicychat-analytics-dashboard ingestion / delta /
discovery engine, shallowly embedded from the Python sources.

Conventions used throughout:
* SQLite tables are modelled as Lean lists of structure values, in row order;
  `DELETE ... WHERE` is `List.filter`, plain `INSERT` is append, and
  `INSERT OR REPLACE` / `ON CONFLICT` clauses are modelled by explicit
  filter-then-append / conditional-update folds that mirror the SQL.
* Python `datetime.now(...)` values are passed in as explicit parameters
  (the functions are otherwise pure state transformers).
* pandas dates are modelled as integers (ordinal days); a calendar date
  such as `today.replace(day=1)` is passed in as the extra parameter
  `monthStart` (the first day of `today`'s month, so `monthStart ≤ today`).
* log calls (`safe_log` / `logging.*`) that the claims care about are
  collected in an explicit `logs` field.
-/

/-! ### Delta Engine — `src/core/bots.py`, `compute_deltas` (lines 64-90)

A row of the `bots` table as loaded by `load_history_df`: only the columns
that `compute_deltas` reads or writes are carried (`date`, `bot_id`,
`num_messages`); the remaining columns (`bot_name`, `bot_title`,
`creator_user_id`, `created_at`, `avatar_url`) pass through the pandas
pipeline untouched and play no role in any delta computation. -/

structure BotsRow where
  date : Int
  botId : String
  num : Int
  deriving DecidableEq, Repr

/-- Output row of `compute_deltas`: the input columns plus the computed
`daily_messages` column. -/
structure DeltaRow where
  date : Int
  botId : String
  num : Int
  daily : Int
  deriving DecidableEq, Repr

/-- Result of `compute_deltas`: the filtered dataframe plus the log lines the
function emitted (`safe_log("No data to compute deltas.")` is its only log
call; notably there is no logging at the negative-delta clamp). -/
structure DeltasOutput where
  rows : List DeltaRow
  logs : List String
  deriving DecidableEq, Repr

/-- Lexicographic comparison of character lists by code point (the order on
which pandas sorts the string `bot_id` column). -/
def strLtB : List Char → List Char → Bool
  | [], [] => false
  | [], _ :: _ => true
  | _ :: _, [] => false
  | a :: as, b :: bs =>
      if a.toNat < b.toNat then true
      else if b.toNat < a.toNat then false
      else strLtB as bs

/-- Strict lexicographic order on strings (semantically `String.lt`, stated
over `String.data` so that the kernel can evaluate it). -/
def strLt (a b : String) : Bool := strLtB a.data b.data

/-- Sort key of `df_raw.sort_values(["bot_id", "date"])`: by `bot_id`, then
by `date`. -/
def rowKeyLE (a b : BotsRow) : Prop :=
  (strLt a.botId b.botId || (a.botId == b.botId && a.date ≤ b.date)) = true

instance : DecidableRel rowKeyLE := fun _ _ => instDecidableEqBool _ _

/-- `df_raw.sort_values(["bot_id", "date"])`. -/
def sortRows (rows : List BotsRow) : List BotsRow :=
  List.insertionSort rowKeyLE rows

/-- Last `num_messages` value recorded for a bot id (the state pandas'
`groupby("bot_id")["num_messages"].diff()` carries: the value of the previous
row of the same group). -/
def lookupLast (env : List (String × Int)) (b : String) : Option Int :=
  (env.find? (fun p => p.1 == b)).map (·.2)

/-- `df.groupby("bot_id")["num_messages"].diff().fillna(0)`: each row's delta
is its count minus the count of the previous row with the same `bot_id`
(in the given list order), and 0 for a bot's first row (`fillna(0)`). -/
def addDeltasAux (env : List (String × Int)) : List BotsRow → List DeltaRow
  | [] => []
  | r :: rest =>
      let d := match lookupLast env r.botId with
        | some n => r.num - n
        | none => 0
      ⟨r.date, r.botId, r.num, d⟩ :: addDeltasAux ((r.botId, r.num) :: env) rest

/-- Delta column over a (sorted) dataframe, starting from no previous counts. -/
def addDeltas (rows : List BotsRow) : List DeltaRow :=
  addDeltasAux [] rows

/-- `df.loc[df["daily_messages"] < 0, "daily_messages"] = 0`. -/
def clampRow (r : DeltaRow) : DeltaRow :=
  if r.daily < 0 then { r with daily := 0 } else r

/-- Timeframe filter cutoff of `compute_deltas`: `"7day"` keeps dates from
`today - 7` on, `"30day"` from `today - 30`, `"current_month"` from
`today.replace(day=1)` (passed in as `monthStart`); any other string
(including `"All"`) applies no filter. -/
def cutoffFor (timeframe : String) (today monthStart : Int) : Option Int :=
  if timeframe = "7day" then some (today - 7)
  else if timeframe = "30day" then some (today - 30)
  else if timeframe = "current_month" then some monthStart
  else none

/-- `compute_deltas(df_raw, timeframe)` from `src/core/bots.py` lines 64-90:
on empty input, return the empty frame and log; otherwise sort by
`(bot_id, date)`, compute per-bot diffs (first row of a bot gets 0), clamp
negative deltas to 0 — with no anomaly log —, then drop rows before the
timeframe cutoff. -/
def computeDeltas (dfRaw : List BotsRow) (timeframe : String)
    (today monthStart : Int) : DeltasOutput :=
  if dfRaw = [] then
    { rows := [], logs := ["No data to compute deltas."] }
  else
    let sorted := sortRows dfRaw
    let clamped := (addDeltas sorted).map clampRow
    let filtered := match cutoffFor timeframe today monthStart with
      | none => clamped
      | some c => clamped.filter (fun r => c ≤ r.date)
    { rows := filtered, logs := [] }

/-! ### Snapshot ingest — `src/core/snapshot.py`, `take_snapshot` (lines 44-196)

An item of the flattened payload, carrying the values the field-tolerant
getters of `src/core/helpers.py` extract from the raw dict:
`get_num_messages` returns `None` when no message-count key is present
(modelled `none`), `get_id` returns `""` when no id key is present. The
timezone normalisation of `created_at` (a string-to-string rewrite wrapped
in try/except pass) is carried through as the already-normalised string. -/

structure Item where
  numMessages : Option Int
  id : String
  name : String
  title : String
  creatorUserId : String
  createdAt : String
  avatarUrl : String
  deriving DecidableEq, Repr

/-- A row of the `bots` table as written by `take_snapshot` (its eight
columns are exactly `ALLOWED_FIELDS`, so `sanitize_rows` is the identity on
the rows the loop builds). -/
structure SnapRow where
  date : String
  botId : String
  botName : String
  botTitle : String
  numMessages : Int
  creatorUserId : String
  createdAt : String
  avatarUrl : String
  deriving DecidableEq, Repr

/-- Row the ingest loop builds for one payload item (`snapshot.py` lines
101-110). -/
def mkRow (stamp : String) (d : Item) : SnapRow :=
  ⟨stamp, d.id, d.name, d.title, d.numMessages.getD 0,
    d.creatorUserId, d.createdAt, d.avatarUrl⟩

/-- The `rows`/`seen` loop of `take_snapshot` (lines 85-116): skip items with
a missing message count or missing id, skip ids already seen, keep the first
occurrence of each id in payload order. -/
def buildRowsAux (stamp : String) : List Item → List String → List SnapRow
  | [], _ => []
  | d :: rest, seen =>
      if d.numMessages.isNone || d.id = "" then buildRowsAux stamp rest seen
      else if seen.contains d.id then buildRowsAux stamp rest seen
      else mkRow stamp d :: buildRowsAux stamp rest (d.id :: seen)

/-- Rows written for one snapshot, from the flattened payload items. -/
def buildRows (stamp : String) (items : List Item) : List SnapRow :=
  buildRowsAux stamp items []

/-- The write phase of `take_snapshot` (lines 121-144): one transaction doing
`DELETE FROM bots WHERE date = ?` followed by plain `INSERT`s of the given
rows. -/
def replacePeriod (store : List SnapRow) (stamp : String)
    (rows : List SnapRow) : List SnapRow :=
  store.filter (fun r => !(r.date == stamp)) ++ rows

/-! ### Rank ingest — `src/core/db.py`, `save_rank_history_for_date`
(lines 228-272). (`src/core.py` lines 999-1036 holds a superseded rewrite of
the same function that upserts without the per-date DELETE; the `core/`
package version below is the one the application imports.) -/

structure RankRow where
  date : String
  botId : String
  rank : Int
  deriving DecidableEq, Repr

/-- Row-building loop of `save_rank_history_for_date` (lines 237-245): the
Typesense map is an association of bot id to an optional parsed rank;
entries with an empty id or no parseable rank are skipped. -/
def rankRowsFor (stamp : String) (tsMap : List (String × Option Int)) :
    List RankRow :=
  tsMap.filterMap (fun q =>
    match q.2 with
    | none => none
    | some r => if q.1 = "" then none else some ⟨stamp, q.1, r⟩)

/-- `INSERT OR REPLACE INTO bot_rank_history`: the conflicting row (same
primary key `(date, bot_id)`) is deleted and the new row inserted. -/
def insertOrReplaceRank (store : List RankRow) (row : RankRow) :
    List RankRow :=
  store.filter (fun s => !(s.date == row.date && s.botId == row.botId)) ++ [row]

/-- `save_rank_history_for_date(stamp, ts_map)`: no-op on an empty stamp;
otherwise `DELETE FROM bot_rank_history WHERE date = ?` then
`INSERT OR REPLACE` each built row. -/
def saveRankHistoryForDate (store : List RankRow) (stamp : String)
    (tsMap : List (String × Option Int)) : List RankRow :=
  if stamp = "" then store
  else
    (rankRowsFor stamp tsMap).foldl insertOrReplaceRank
      (store.filter (fun s => !(s.date == stamp)))

/-! ### Discovery Engine — `src/core/authors_service.py`

A row of `author_bot_map` (`PRIMARY KEY (author, bot_id)`): nullable
`first_seen_at`, `last_seen_at` and `seen_at` columns are `Option String`
(ISO timestamps). `bot_static` writes are not modelled: they touch a
separate table that none of the discovery state predicates read. -/

structure MapEntry where
  author : String
  botId : String
  firstSeen : Option String
  lastSeen : Option String
  seenAt : Option String
  deriving DecidableEq, Repr

/-- One step of `_upsert_author_map`'s `executemany` (lines 203-211):
`INSERT INTO author_bot_map (author, bot_id, first_seen_at, last_seen_at)`
with `ON CONFLICT(author, bot_id) DO UPDATE SET
last_seen_at = excluded.last_seen_at` — note the conflict clause updates
only `last_seen_at`, never `first_seen_at`. A fresh insert leaves `seen_at`
NULL. -/
def upsertOne (m : List MapEntry) (author bid : String)
    (firstSeen : Option String) (now : String) : List MapEntry :=
  if m.any (fun e => e.author == author && e.botId == bid) then
    m.map (fun e =>
      if e.author == author && e.botId == bid then
        { e with lastSeen := some now }
      else e)
  else m ++ [⟨author, bid, firstSeen, some now, none⟩]

/-- `_upsert_author_map(author, bot_ids, first_seen_at)` (lines 194-213); the
`now` parameter is the `_utc_now_iso()` value the call computes. -/
def upsertAuthorMap (m : List MapEntry) (author : String) :
    List String → Option String → String → List MapEntry
  | [], _, _ => m
  | bid :: rest, firstSeen, now =>
      upsertAuthorMap (upsertOne m author bid firstSeen now) author rest
        firstSeen now

/-- `_author_existing_bot_ids(author)` (lines 163-170): the bot ids already
mapped to the author. -/
def authorExistingBotIds (m : List MapEntry) (author : String) : List String :=
  (m.filter (fun e => e.author == author)).map (·.botId)

/-- `refresh_single_author_snapshot(stamp, author)` (lines 374-474),
restricted to its `author_bot_map` effect and its return value (the
`bot_static` backfill writes a separate table). `currentIds` is the id list
the Typesense collaborator returned (already de-duplicated by the fetch);
`now1` and `now2` are the `_utc_now_iso()` values of the two
`_upsert_author_map` calls. Returns the updated map and the discovered
count.

Baseline case (no existing rows for the author): upsert every current id
with `first_seen_at = NULL` and return 0. Normal case: compute the new ids,
upsert all current ids with `first_seen_at = None`, and then upsert the new
ids with `first_seen_at = now` — the second upsert hits rows that the first
upsert just inserted, so its ON CONFLICT branch only refreshes
`last_seen_at`. Returns the number of new ids. -/
def refreshSingleAuthorSnapshot (m : List MapEntry) (author : String)
    (currentIds : List String) (now1 now2 : String) :
    List MapEntry × Nat :=
  if author = "" then (m, 0)
  else if currentIds = [] then (m, 0)
  else
    let existing := authorExistingBotIds m author
    if existing = [] then
      (upsertAuthorMap m author currentIds none now1, 0)
    else
      let newIds := currentIds.filter (fun bid => !(existing.contains bid))
      let m1 := upsertAuthorMap m author currentIds none now1
      if newIds = [] then (m1, 0)
      else
        let m2 := upsertAuthorMap m1 author newIds (some now2) now2
        (m2, newIds.length)

/-- `mark_bot_seen(bot_id)` (lines 604-617):
`UPDATE author_bot_map SET seen_at = ? WHERE bot_id = ?` (across all
authors); no-op on an empty id. -/
def markBotSeen (m : List MapEntry) (bid now : String) : List MapEntry :=
  if bid = "" then m
  else m.map (fun e =>
    if e.botId == bid then { e with seenAt := some now } else e)

/-- Unseen predicate of `/api/author-new-counts`
(`src/routes_authors.py` lines 298-303):
`first_seen_at IS NOT NULL AND (seen_at IS NULL OR seen_at = '')`. -/
def countsUnseen (e : MapEntry) : Bool :=
  e.firstSeen.isSome && (e.seenAt == none || e.seenAt == some "")

/-- Per-author unseen total of `/api/author-new-counts`: the number of the
author's `author_bot_map` rows satisfying the unseen predicate. -/
def unseenCount (m : List MapEntry) (author : String) : Nat :=
  (m.filter (fun e => e.author == author && countsUnseen e)).length

/-! ### Snapshot Orchestrator — `src/core/snapshot.py`, `take_snapshot`

The collaborator outcomes of one cycle, as `take_snapshot` observes them:
the credential pair from `ensure_fresh_kinde_token` (Python-falsy values
modelled as `""`), the boolean from `test_auth_credentials`, and the result
of `capture_payloads` — which per `src/core/api_capture.py` either returns
payload lists, raises `RuntimeError` (retries exhausted), or raises some
other exception (`requests` HTTP/network errors and JSON decode errors are
re-raised as-is, and only `RuntimeError` is caught by `take_snapshot`). -/

inductive CaptureOutcome where
  | payloads (ps : List (List Item))
  | raiseRuntime
  | raiseOther
  deriving DecidableEq, Repr

structure SnapEnv where
  bearer : String
  guest : String
  credsValid : Bool
  capture : CaptureOutcome
  deriving DecidableEq, Repr

/-- Mutable state `take_snapshot` can touch before its fault-isolated later
stages: the `bots` table, the module-global `AUTH_REQUIRED` flag, and
whether the `last_snapshot` metadata timestamp was written. -/
structure SnapState where
  bots : List SnapRow
  authRequired : Bool
  lastSnapshotSet : Bool
  deriving DecidableEq, Repr

/-- Result of one `take_snapshot` call: the state, whether the later stages
(rank refresh, tag/rating caching, author discovery) were attempted, and
whether the call ended by propagating an exception instead of returning. -/
structure SnapResult where
  state : SnapState
  laterStagesRun : Bool
  raised : Bool
  deriving DecidableEq, Repr

/-- Control flow of `take_snapshot(args, verbose)` (lines 44-196) up to the
later stages: missing or invalid credentials set `AUTH_REQUIRED` and return;
`AUTH_REQUIRED` is cleared after the credential check (line 66); a
`RuntimeError` from `capture_payloads` sets `AUTH_REQUIRED` and returns; any
other exception from `capture_payloads` propagates (nothing else runs); an
empty payload list returns early; otherwise the flattened items are
deduplicated into rows, the period is replaced in the `bots` table, the
`last_snapshot` timestamp is written and the later stages run. -/
def takeSnapshot (env : SnapEnv) (st : SnapState) (stamp : String) :
    SnapResult :=
  if env.bearer = "" || env.guest = "" then
    ⟨{ st with authRequired := true }, false, false⟩
  else if !env.credsValid then
    ⟨{ st with authRequired := true }, false, false⟩
  else
    let st1 := { st with authRequired := false }
    match env.capture with
    | .raiseRuntime => ⟨{ st1 with authRequired := true }, false, false⟩
    | .raiseOther => ⟨st1, false, true⟩
    | .payloads ps =>
        if ps = [] then ⟨st1, false, false⟩
        else
          let rows := buildRows stamp ps.flatten
          ⟨{ st1 with
              bots := replacePeriod st1.bots stamp rows,
              lastSnapshotSet := true }, true, false⟩

/-! ### Helper definitions used only by the correctness statements -/

/-- Expected shape of the delta column of one bot's history (in order):
given the bot's last count before the list (`init`, `none` when the list is
the bot's whole history), each row's delta is its count minus its
predecessor's count, and `init`'s absence gives the first row a 0. -/
def deltaSpec (init : Option Int) : List BotsRow → List DeltaRow
  | [] => []
  | r :: rest =>
      ⟨r.date, r.botId, r.num,
        match init with
        | some n => r.num - n
        | none => 0⟩ :: deltaSpec (some r.num) rest

/-- Forget the computed delta column, recovering the stored `bots` row. -/
def stripDelta (r : DeltaRow) : BotsRow := ⟨r.date, r.botId, r.num⟩

/-- An ingest item the snapshot loop keeps: it has a message count and a
non-empty id. -/
def validItem (d : Item) : Bool := d.numMessages.isSome && !(d.id == "")

/-- Primary key of a `bots` table row. -/
def snapKey (r : SnapRow) : String × String := (r.date, r.botId)

/-- Cycles in which the entity fetch fails, per the claim's taxonomy:
credentials missing or invalid, or the payload capture raises. -/
def fetchFails (env : SnapEnv) : Prop :=
  env.bearer = "" ∨ env.guest = "" ∨ env.credsValid = false ∨
    env.capture = CaptureOutcome.raiseRuntime ∨
    env.capture = CaptureOutcome.raiseOther

/-! ### Lemmas about the Delta Engine -/

theorem lookupLast_cons_self (env : List (String × Int)) (p : String × Int)
    (b : String) (h : (p.1 == b) = true) :
    lookupLast (p :: env) b = some p.2 := by
  simp [lookupLast, List.find?_cons_of_pos, h]

theorem lookupLast_cons_ne (env : List (String × Int)) (p : String × Int)
    (b : String) (h : (p.1 == b) = false) :
    lookupLast (p :: env) b = lookupLast env b := by
  simp [lookupLast, List.find?_cons_of_neg, h]

/-- The rows of one bot in the output of the diff step are exactly the
per-bot delta column of that bot's rows, seeded with whatever previous count
the running environment holds for the bot. -/
theorem filter_addDeltasAux (b : String) :
    ∀ (l : List BotsRow) (env : List (String × Int)),
      (addDeltasAux env l).filter (fun r => r.botId == b)
        = deltaSpec (lookupLast env b) (l.filter (fun r => r.botId == b))
  | [], _ => rfl
  | r :: rest, env => by
      by_cases hb : (r.botId == b) = true
      · have hbeq : r.botId = b := by simpa using hb
        simp only [addDeltasAux, List.filter_cons, hb, if_pos]
        rw [filter_addDeltasAux b rest ((r.botId, r.num) :: env)]
        rw [lookupLast_cons_self _ _ _ (by simpa using hbeq)]
        simp [deltaSpec, hbeq]
      · have hb' : (r.botId == b) = false := by simpa using hb
        simp only [addDeltasAux, List.filter_cons, hb']
        rw [filter_addDeltasAux b rest ((r.botId, r.num) :: env)]
        rw [lookupLast_cons_ne _ _ _ hb']
        simp [hb']

/-- Splitting a bot's history: the delta column after a non-empty first part
continues from the last count of that part. -/
theorem deltaSpec_append (l2 : List BotsRow) :
    ∀ (l1 : List BotsRow) (init : Option Int) (plast : BotsRow),
      l1.getLast? = some plast →
      deltaSpec init (l1 ++ l2)
        = deltaSpec init l1 ++ deltaSpec (some plast.num) l2
  | [], _, _, h => by simp at h
  | [a], init, plast, h => by
      simp only [List.getLast?_singleton, Option.some.injEq] at h
      subst h
      simp [deltaSpec]
  | a :: a' :: l1, init, plast, h => by
      rw [List.getLast?_cons_cons] at h
      have ih := deltaSpec_append l2 (a' :: l1) (some a.num) plast h
      simp only [deltaSpec, List.cons_append, List.cons.injEq, true_and] at ih ⊢
      exact ih

/-- The diff step only adds a column: dates, ids and counts are untouched. -/
theorem addDeltasAux_strip :
    ∀ (l : List BotsRow) (env : List (String × Int)),
      (addDeltasAux env l).map stripDelta = l
  | [], _ => rfl
  | r :: rest, env => by
      simp only [addDeltasAux, List.map_cons, stripDelta]
      rw [addDeltasAux_strip rest]

/-- The delta column keeps each row's date. -/
theorem deltaSpec_map_date :
    ∀ (l : List BotsRow) (init : Option Int),
      (deltaSpec init l).map (·.date) = l.map (·.date)
  | [], _ => rfl
  | r :: rest, init => by
      simp only [deltaSpec, List.map_cons]
      rw [deltaSpec_map_date rest]

theorem clampRow_botId (r : DeltaRow) : (clampRow r).botId = r.botId := by
  unfold clampRow; split <;> rfl

theorem clampRow_date (r : DeltaRow) : (clampRow r).date = r.date := by
  unfold clampRow; split <;> rfl

theorem clampRow_num (r : DeltaRow) : (clampRow r).num = r.num := by
  unfold clampRow; split <;> rfl

theorem clampRow_nonneg (r : DeltaRow) : 0 ≤ (clampRow r).daily := by
  unfold clampRow; split
  · exact le_refl 0
  · omega

theorem clampRow_eq_max (r : DeltaRow) :
    clampRow r = ⟨r.date, r.botId, r.num, max r.daily 0⟩ := by
  unfold clampRow
  by_cases h : r.daily < 0
  · rw [if_pos h, show max r.daily 0 = 0 by omega]
  · rw [if_neg h, show max r.daily 0 = r.daily by omega]

theorem filter_filter_comb {α : Type} (p q : α → Bool) :
    ∀ l : List α, (l.filter p).filter q = l.filter (fun a => p a && q a)
  | [] => rfl
  | a :: l => by
      cases hp : p a <;> cases hq : q a <;>
        simp [List.filter_cons, hp, hq, filter_filter_comb p q l]

theorem deltaSpec_mem_date (init : Option Int) (l : List BotsRow)
    (r : DeltaRow) (h : r ∈ deltaSpec init l) : ∃ x ∈ l, r.date = x.date := by
  have hd : r.date ∈ (deltaSpec init l).map (·.date) := List.mem_map_of_mem _ h
  rw [deltaSpec_map_date] at hd
  obtain ⟨x, hx, hxe⟩ := List.mem_map.mp hd
  exact ⟨x, hx, hxe.symm⟩

/-- The clamped delta rows of one bot are the clamped per-bot delta column of
that bot's sorted history. -/
theorem clamped_bot_filter (rows : List BotsRow) (b : String) :
    ((addDeltas (sortRows rows)).map clampRow).filter (fun r => r.botId == b)
      = (deltaSpec none ((sortRows rows).filter (fun r => r.botId == b))).map
          clampRow := by
  rw [List.filter_map]
  have h1 : ((addDeltas (sortRows rows)).filter
        ((fun r => r.botId == b) ∘ clampRow))
      = (addDeltas (sortRows rows)).filter (fun r => r.botId == b) := by
    apply List.filter_congr
    intro a _
    simp [Function.comp, clampRow_botId]
  rw [h1]
  have h2 : lookupLast [] b = none := rfl
  rw [addDeltas, filter_addDeltasAux b _ [], h2]

/-- C5 (claim): every delta reported by `compute_deltas`, for any timeframe,
is non-negative — the negative-delta clamp runs before the window filter and
nothing after it changes the column. -/
theorem delta_nonneg (rows : List BotsRow) (tf : String) (today ms : Int)
    (r : DeltaRow) (hr : r ∈ (computeDeltas rows tf today ms).rows) :
    0 ≤ r.daily := by
  unfold computeDeltas at hr
  by_cases hne : rows = []
  · rw [if_pos hne] at hr
    simp at hr
  · rw [if_neg hne] at hr
    simp only at hr
    cases hcut : cutoffFor tf today ms with
    | none =>
        rw [hcut] at hr
        obtain ⟨x, -, hxe⟩ := List.mem_map.mp hr
        rw [← hxe]
        exact clampRow_nonneg x
    | some c =>
        rw [hcut] at hr
        obtain ⟨x, -, hxe⟩ := List.mem_map.mp (List.mem_filter.mp hr).1
        rw [← hxe]
        exact clampRow_nonneg x

theorem delta_nonneg_witness :
    (⟨1, "X", 100, 0⟩ : DeltaRow) ∈ (computeDeltas [⟨1, "X", 100⟩] "All" 0 0).rows
      ∧ (0 : Int) ≤ (⟨1, "X", 100, 0⟩ : DeltaRow).daily :=
  ⟨by decide, delta_nonneg [⟨1, "X", 100⟩] "All" 0 0 ⟨1, "X", 100, 0⟩ (by decide)⟩

/-- C2 (amended): for every entity with history strictly before the window
start, the delta reported for the entity's first row inside the window is
computed against the last count strictly before the window start — neither 0
nor dropped — and then clamped below at 0 like every other delta: it equals
`max (count_at_first_in_window_row - count_immediately_before_window) 0`.
Hypotheses: the window cutoff is `c`; the entity's sorted history splits as
`pre ++ q :: post` with all of `pre` strictly before `c` (so `q` is the
first row inside the window), `plast` the last row before the window, and
the rows after `q` strictly later than `q` (distinct dates per the
`(date, bot_id)` primary key). -/
theorem window_boundary_interpolation (rows : List BotsRow) (tf : String)
    (today ms c : Int) (b : String) (pre post : List BotsRow)
    (q plast : BotsRow)
    (hc : cutoffFor tf today ms = some c)
    (hbs : (sortRows rows).filter (fun r => r.botId == b) = pre ++ q :: post)
    (hlast : pre.getLast? = some plast)
    (hpre : ∀ x ∈ pre, x.date < c)
    (hq : c ≤ q.date)
    (hpost : ∀ x ∈ post, q.date < x.date) :
    ((computeDeltas rows tf today ms).rows).filter
        (fun r => r.botId == b && r.date == q.date)
      = [⟨q.date, q.botId, q.num, max (q.num - plast.num) 0⟩] := by
  have hne : rows ≠ [] := by
    intro h0
    subst h0
    simp only [sortRows, List.insertionSort, List.filter_nil] at hbs
    exact absurd hbs.symm (List.append_ne_nil_of_right_ne_nil pre (by simp))
  simp only [computeDeltas, if_neg hne, hc]
  rw [filter_filter_comb]
  have hsplit :
      ((addDeltas (sortRows rows)).map clampRow).filter
          (fun r => decide (c ≤ r.date) && (r.botId == b && r.date == q.date))
        = (((addDeltas (sortRows rows)).map clampRow).filter
            (fun r => r.botId == b)).filter
              (fun r => decide (c ≤ r.date) && r.date == q.date) := by
    rw [filter_filter_comb]
    apply List.filter_congr
    intro a _
    cases a.botId == b <;> cases decide (c ≤ a.date) <;>
      cases a.date == q.date <;> rfl
  rw [hsplit, clamped_bot_filter rows b, hbs]
  rw [List.filter_map]
  have hpred :
      ((deltaSpec none (pre ++ q :: post)).filter
          ((fun r => decide (c ≤ r.date) && r.date == q.date) ∘ clampRow))
        = (deltaSpec none (pre ++ q :: post)).filter
            (fun r => decide (c ≤ r.date) && r.date == q.date) := by
    apply List.filter_congr
    intro a _
    simp [Function.comp, clampRow_date]
  rw [hpred]
  rw [deltaSpec_append (q :: post) pre none plast hlast]
  rw [List.filter_append]
  have hprenil : (deltaSpec none pre).filter
      (fun r => decide (c ≤ r.date) && r.date == q.date) = [] := by
    rw [List.filter_eq_nil_iff]
    intro a ha
    obtain ⟨x, hx, hxd⟩ := deltaSpec_mem_date none pre a ha
    have : ¬ (c ≤ a.date) := by
      have := hpre x hx
      omega
    simp [this]
  have hqrow : deltaSpec (some plast.num) (q :: post)
      = ⟨q.date, q.botId, q.num, q.num - plast.num⟩
          :: deltaSpec (some q.num) post := rfl
  rw [hprenil, hqrow, List.nil_append, List.filter_cons]
  have hqkeep : (decide (c ≤ q.date) && (q.date == q.date)) = true := by
    simp [hq]
  rw [if_pos (by simp [hq])]
  have hpostnil : (deltaSpec (some q.num) post).filter
      (fun r => decide (c ≤ r.date) && r.date == q.date) = [] := by
    rw [List.filter_eq_nil_iff]
    intro a ha
    obtain ⟨x, hx, hxd⟩ := deltaSpec_mem_date (some q.num) post a ha
    have : (a.date == q.date) = false := by
      have := hpost x hx
      simp only [beq_eq_false_iff_ne, ne_eq]
      omega
    simp [this]
  rw [hpostnil]
  simp [clampRow_eq_max]

theorem window_boundary_interpolation_witness :
    ((computeDeltas [⟨1, "X", 100⟩, ⟨2, "X", 150⟩, ⟨3, "X", 210⟩] "7day" 9 0).rows).filter
        (fun r => r.botId == "X" && r.date == 2)
      = [⟨2, "X", 150, 50⟩] := by
  have h := window_boundary_interpolation
    [⟨1, "X", 100⟩, ⟨2, "X", 150⟩, ⟨3, "X", 210⟩] "7day" 9 0 2 "X"
    [⟨1, "X", 100⟩] [⟨3, "X", 210⟩] ⟨2, "X", 150⟩ ⟨1, "X", 100⟩
    (by decide) (by decide) (by decide) (by decide) (by decide) (by decide)
  simpa using h

/-- C2 (counterexample to the claim as stated): with history
`[(P1, 100), (P2, 50)]` and a window starting at P2, the delta reported for
the first row inside the window is the clamped 0, not the claimed
`count - last count before the window` = `50 - 100 = -50`. -/
theorem window_boundary_claim_counterexample :
    ((computeDeltas [⟨1, "X", 100⟩, ⟨2, "X", 50⟩] "7day" 9 0).rows).filter
        (fun r => r.botId == "X" && r.date == 2)
      = [⟨2, "X", 50, 0⟩]
    ∧ (0 : Int) ≠ 50 - 100 := by
  constructor
  · decide
  · decide

theorem stripDelta_clampRow (r : DeltaRow) :
    stripDelta (clampRow r) = stripDelta r := by
  unfold clampRow stripDelta
  split <;> rfl

/-- C4 (amended): for every entity and consecutive period pair whose raw
counter decreased, `compute_deltas` reports a delta of 0 for the later
period (the clamp), passes the stored rows through unaltered (the output,
with the delta column dropped, is a permutation of the input `bots` rows —
the counts themselves are not rewritten), and records no anomaly
observation: its log output is empty (the superseded `core.py` rewrite
logged each decrease; the `core/bots.py` version the application uses does
not). -/
theorem anomaly_clamp (rows : List BotsRow) (today ms : Int) (b : String)
    (pre post : List BotsRow) (q plast : BotsRow)
    (hbs : (sortRows rows).filter (fun r => r.botId == b) = pre ++ q :: post)
    (hlast : pre.getLast? = some plast)
    (hdec : q.num < plast.num)
    (hpre : ∀ x ∈ pre, x.date < q.date)
    (hpost : ∀ x ∈ post, q.date < x.date) :
    ((computeDeltas rows "All" today ms).rows).filter
        (fun r => r.botId == b && r.date == q.date)
      = [⟨q.date, q.botId, q.num, 0⟩]
    ∧ List.Perm (((computeDeltas rows "All" today ms).rows).map stripDelta)
        rows
    ∧ (computeDeltas rows "All" today ms).logs = [] := by
  have hne : rows ≠ [] := by
    intro h0
    subst h0
    simp only [sortRows, List.insertionSort, List.filter_nil] at hbs
    exact absurd hbs.symm (List.append_ne_nil_of_right_ne_nil pre (by simp))
  have hcut : cutoffFor "All" today ms = none := rfl
  refine ⟨?_, ?_, ?_⟩
  · simp only [computeDeltas, if_neg hne, hcut]
    rw [← filter_filter_comb (fun r : DeltaRow => r.botId == b)
      (fun r : DeltaRow => r.date == q.date)
      ((addDeltas (sortRows rows)).map clampRow)]
    rw [clamped_bot_filter rows b, hbs]
    rw [List.filter_map]
    have hpred :
        ((deltaSpec none (pre ++ q :: post)).filter
            ((fun r => r.date == q.date) ∘ clampRow))
          = (deltaSpec none (pre ++ q :: post)).filter
              (fun r => r.date == q.date) := by
      apply List.filter_congr
      intro a _
      simp [Function.comp, clampRow_date]
    rw [hpred]
    rw [deltaSpec_append (q :: post) pre none plast hlast]
    rw [List.filter_append]
    have hprenil : (deltaSpec none pre).filter
        (fun r => r.date == q.date) = [] := by
      rw [List.filter_eq_nil_iff]
      intro a ha
      obtain ⟨x, hx, hxd⟩ := deltaSpec_mem_date none pre a ha
      have hlt := hpre x hx
      have hf : (a.date == q.date) = false := by
        simp only [beq_eq_false_iff_ne, ne_eq]
        omega
      simp [hf]
    have hqrow : deltaSpec (some plast.num) (q :: post)
        = ⟨q.date, q.botId, q.num, q.num - plast.num⟩
            :: deltaSpec (some q.num) post := rfl
    rw [hprenil, hqrow, List.nil_append, List.filter_cons]
    rw [if_pos (by simp)]
    have hpostnil : (deltaSpec (some q.num) post).filter
        (fun r => r.date == q.date) = [] := by
      rw [List.filter_eq_nil_iff]
      intro a ha
      obtain ⟨x, hx, hxd⟩ := deltaSpec_mem_date (some q.num) post a ha
      have hgt := hpost x hx
      have hf : (a.date == q.date) = false := by
        simp only [beq_eq_false_iff_ne, ne_eq]
        omega
      simp [hf]
    rw [hpostnil]
    simp only [List.map_cons, List.map_nil, clampRow_eq_max]
    have : max (q.num - plast.num) 0 = 0 := by omega
    rw [this]
  · simp only [computeDeltas, if_neg hne, hcut]
    rw [List.map_map]
    have : ((addDeltas (sortRows rows)).map (stripDelta ∘ clampRow))
        = (addDeltas (sortRows rows)).map stripDelta := by
      apply List.map_congr_left
      intro a _
      exact stripDelta_clampRow a
    rw [this, addDeltas, addDeltasAux_strip]
    exact List.perm_insertionSort rowKeyLE rows
  · simp [computeDeltas, if_neg hne]

/-- C4 (counterexample to the claim as stated): entity Y's counter decreases
from 50 to 40 between periods 1 and 2; the reported delta is clamped to 0
and the stored counts are untouched, but no anomaly observation is recorded
anywhere — `compute_deltas` emits no log output at all on this input. -/
theorem anomaly_policy_claim_counterexample :
    (computeDeltas [⟨1, "Y", 50⟩, ⟨2, "Y", 40⟩] "All" 9 0).rows
        = [⟨1, "Y", 50, 0⟩, ⟨2, "Y", 40, 0⟩]
      ∧ (computeDeltas [⟨1, "Y", 50⟩, ⟨2, "Y", 40⟩] "All" 9 0).logs = [] := by
  constructor
  · decide
  · decide

theorem anomaly_clamp_witness :
    ((computeDeltas [⟨1, "Y", 50⟩, ⟨2, "Y", 40⟩] "All" 9 0).rows).filter
        (fun r => r.botId == "Y" && r.date == 2)
      = [⟨2, "Y", 40, 0⟩]
    ∧ List.Perm
        (((computeDeltas [⟨1, "Y", 50⟩, ⟨2, "Y", 40⟩] "All" 9 0).rows).map
          stripDelta)
        [⟨1, "Y", 50⟩, ⟨2, "Y", 40⟩]
    ∧ (computeDeltas [⟨1, "Y", 50⟩, ⟨2, "Y", 40⟩] "All" 9 0).logs = [] :=
  anomaly_clamp [⟨1, "Y", 50⟩, ⟨2, "Y", 40⟩] 9 0 "Y"
    [⟨1, "Y", 50⟩] [] ⟨2, "Y", 40⟩ ⟨1, "Y", 50⟩
    (by decide) (by decide) (by decide)
    (by intro x hx; simp at hx; subst hx; decide)
    (by intro x hx; simp at hx)

theorem filter_self_idem {α : Type} (pr : α → Bool) (l : List α) :
    (l.filter pr).filter pr = l.filter pr := by
  rw [filter_filter_comb]
  apply List.filter_congr
  intro a _
  cases pr a <;> rfl

/-- C6 (claim): the snapshot ingest's replace-by-period is idempotent —
deleting a period's rows and re-inserting the same rows a second time leaves
the `bots` table exactly as after the first call. The hypothesis that every
inserted row carries the replaced period's date is how `take_snapshot`
builds its rows (each row's `date` field is the snapshot stamp). -/
theorem replacePeriod_idempotent (store : List SnapRow) (p : String)
    (rows : List SnapRow) (h : ∀ r ∈ rows, r.date = p) :
    replacePeriod (replacePeriod store p rows) p rows
      = replacePeriod store p rows := by
  unfold replacePeriod
  rw [List.filter_append]
  have h1 : rows.filter (fun r => !(r.date == p)) = [] := by
    rw [List.filter_eq_nil_iff]
    intro a ha
    simp [h a ha]
  rw [h1, filter_self_idem, List.append_nil]

theorem replacePeriod_idempotent_witness :
    (∀ r ∈ [(⟨"p", "X", "n", "t", 5, "u", "c", "a"⟩ : SnapRow)], r.date = "p")
    ∧ replacePeriod
        (replacePeriod [(⟨"q", "Y", "n", "t", 7, "u", "c", "a"⟩ : SnapRow)] "p"
          [⟨"p", "X", "n", "t", 5, "u", "c", "a"⟩]) "p"
        [⟨"p", "X", "n", "t", 5, "u", "c", "a"⟩]
      = replacePeriod [(⟨"q", "Y", "n", "t", 7, "u", "c", "a"⟩ : SnapRow)] "p"
          [⟨"p", "X", "n", "t", 5, "u", "c", "a"⟩] :=
  ⟨by decide,
   replacePeriod_idempotent [⟨"q", "Y", "n", "t", 7, "u", "c", "a"⟩] "p"
     [⟨"p", "X", "n", "t", 5, "u", "c", "a"⟩] (by decide)⟩

/-! ### Lemmas about the rank ingest -/

theorem rankRowsFor_dates (p : String) (m : List (String × Option Int)) :
    ∀ r ∈ rankRowsFor p m, r.date = p := by
  intro r hr
  simp only [rankRowsFor, List.mem_filterMap] at hr
  obtain ⟨q, _, heq⟩ := hr
  cases hq2 : q.2 with
  | none => rw [hq2] at heq; simp at heq
  | some rk =>
      rw [hq2] at heq
      by_cases hq1 : q.1 = ""
      · simp [hq1] at heq
      · dsimp only at heq
        rw [if_neg hq1] at heq
        injection heq with h
        rw [← h]

theorem fold_ior_filter_ne (p : String) :
    ∀ (rows : List RankRow) (acc : List RankRow),
      (∀ r ∈ rows, r.date = p) →
      (rows.foldl insertOrReplaceRank acc).filter (fun s => !(s.date == p))
        = acc.filter (fun s => !(s.date == p))
  | [], _, _ => rfl
  | row :: rows, acc, h => by
      simp only [List.foldl_cons]
      rw [fold_ior_filter_ne p rows (insertOrReplaceRank acc row)
        (fun r hr => h r (List.mem_cons_of_mem _ hr))]
      unfold insertOrReplaceRank
      rw [List.filter_append]
      have hrow : row.date = p := h row (List.mem_cons_self _ _)
      have h1 : ([row] : List RankRow).filter (fun s => !(s.date == p)) = [] := by
        simp [hrow]
      rw [h1, List.append_nil, filter_filter_comb]
      apply List.filter_congr
      intro a _
      by_cases had : a.date = p
      · simp [had]
      · have h2 : (a.date == row.date) = false := by
          rw [hrow]
          simp [had]
        simp [had, h2]

theorem fold_ior_filter_eq (p : String) :
    ∀ (rows : List RankRow) (acc : List RankRow),
      (∀ r ∈ rows, r.date = p) →
      (rows.foldl insertOrReplaceRank acc).filter (fun s => s.date == p)
        = rows.foldl insertOrReplaceRank (acc.filter (fun s => s.date == p))
  | [], _, _ => rfl
  | row :: rows, acc, h => by
      simp only [List.foldl_cons]
      rw [fold_ior_filter_eq p rows (insertOrReplaceRank acc row)
        (fun r hr => h r (List.mem_cons_of_mem _ hr))]
      congr 1
      unfold insertOrReplaceRank
      rw [List.filter_append]
      have hrow : row.date = p := h row (List.mem_cons_self _ _)
      have h1 : ([row] : List RankRow).filter (fun s => s.date == p) = [row] := by
        simp [hrow]
      rw [h1, filter_filter_comb, filter_filter_comb]
      have hX : acc.filter
            (fun a => (!(a.date == row.date && a.botId == row.botId))
              && (a.date == p))
          = acc.filter
              (fun a => (a.date == p)
                && !(a.date == row.date && a.botId == row.botId)) := by
        apply List.filter_congr
        intro a _
        exact Bool.and_comm _ _
      rw [hX]

/-- C7 (claim): rank ingestion for a period is a full replace. Ingesting the
same period twice is the same as ingesting only the second listing; after
the second ingest, the period's rank rows are exactly those built from the
second listing (the first listing leaves no trace), and rows of other
periods are untouched. -/
theorem rank_full_replace (store : List RankRow) (p : String)
    (m1 m2 : List (String × Option Int)) (hp : p ≠ "") :
    saveRankHistoryForDate (saveRankHistoryForDate store p m1) p m2
        = saveRankHistoryForDate store p m2
    ∧ (saveRankHistoryForDate (saveRankHistoryForDate store p m1) p m2).filter
          (fun s => s.date == p)
        = (rankRowsFor p m2).foldl insertOrReplaceRank []
    ∧ (saveRankHistoryForDate (saveRankHistoryForDate store p m1) p m2).filter
          (fun s => !(s.date == p))
        = store.filter (fun s => !(s.date == p)) := by
  have hm1 := rankRowsFor_dates p m1
  have hm2 := rankRowsFor_dates p m2
  have hsave : ∀ st : List RankRow, saveRankHistoryForDate st p m2
      = (rankRowsFor p m2).foldl insertOrReplaceRank
          (st.filter (fun s => !(s.date == p))) := by
    intro st
    unfold saveRankHistoryForDate
    rw [if_neg hp]
  have hinner : saveRankHistoryForDate store p m1
      = (rankRowsFor p m1).foldl insertOrReplaceRank
          (store.filter (fun s => !(s.date == p))) := by
    unfold saveRankHistoryForDate
    rw [if_neg hp]
  have key : saveRankHistoryForDate (saveRankHistoryForDate store p m1) p m2
      = saveRankHistoryForDate store p m2 := by
    rw [hsave, hsave, hinner, fold_ior_filter_ne p _ _ hm1, filter_self_idem]
  refine ⟨key, ?_, ?_⟩
  · rw [key, hsave, fold_ior_filter_eq p _ _ hm2]
    have hnil : ((store.filter (fun s => !(s.date == p))).filter
        (fun s => s.date == p)) = [] := by
      rw [filter_filter_comb, List.filter_eq_nil_iff]
      intro a _
      cases had : a.date == p <;> simp [had]
    rw [hnil]
  · rw [key, hsave, fold_ior_filter_ne p _ _ hm2, filter_self_idem]

theorem rank_full_replace_witness :
    ("p1" : String) ≠ ""
    ∧ saveRankHistoryForDate
        (saveRankHistoryForDate [⟨"p0", "Y", 3⟩] "p1" [("X", some 5)]) "p1"
        [("X", some 8)]
      = saveRankHistoryForDate [⟨"p0", "Y", 3⟩] "p1" [("X", some 8)]
    ∧ (saveRankHistoryForDate
        (saveRankHistoryForDate [⟨"p0", "Y", 3⟩] "p1" [("X", some 5)]) "p1"
        [("X", some 8)]).filter (fun s => s.botId == "X")
      = [⟨"p1", "X", 8⟩] :=
  ⟨by decide,
   (rank_full_replace [⟨"p0", "Y", 3⟩] "p1" [("X", some 5)] [("X", some 8)]
     (by decide)).1,
   by decide⟩

/-- C8 (amended): in every cycle whose entity fetch fails — credentials
missing or invalid, or `capture_payloads` raising — `take_snapshot` performs
no `bots`-table mutation, writes no `last_snapshot` timestamp, and performs
none of the later stages. The auth-required flag is set before returning in
every such cycle except one: when `capture_payloads` raises an exception
other than `RuntimeError` (HTTP, network or JSON errors are re-raised
as-is), the exception propagates out of `take_snapshot` and the flag — just
cleared by the credential check — is left unset. -/
theorem fetch_failure_aborts (env : SnapEnv) (st : SnapState) (stamp : String)
    (h : fetchFails env) :
    (takeSnapshot env st stamp).state.bots = st.bots
    ∧ (takeSnapshot env st stamp).laterStagesRun = false
    ∧ (takeSnapshot env st stamp).state.lastSnapshotSet = st.lastSnapshotSet
    ∧ ((takeSnapshot env st stamp).state.authRequired = true
        ∨ (env.capture = CaptureOutcome.raiseOther
            ∧ (takeSnapshot env st stamp).raised = true)) := by
  obtain ⟨eb, eg, ec, ecap⟩ := env
  simp only [fetchFails] at h
  unfold takeSnapshot
  by_cases h1 : (decide (eb = "") || decide (eg = "")) = true
  · rw [if_pos h1]
    exact ⟨rfl, rfl, rfl, Or.inl rfl⟩
  · rw [if_neg h1]
    by_cases h2 : (!ec) = true
    · rw [if_pos h2]
      exact ⟨rfl, rfl, rfl, Or.inl rfl⟩
    · rw [if_neg h2]
      cases ecap with
      | payloads ps =>
          exfalso
          rcases h with h | h | h | h | h
          · exact h1 (by simp [h])
          · exact h1 (by simp [h])
          · exact h2 (by simp [h])
          · simp at h
          · simp at h
      | raiseRuntime => exact ⟨rfl, rfl, rfl, Or.inl rfl⟩
      | raiseOther => exact ⟨rfl, rfl, rfl, Or.inr ⟨rfl, rfl⟩⟩

theorem fetch_failure_aborts_witness :
    fetchFails ⟨"", "", false, CaptureOutcome.raiseRuntime⟩
    ∧ ((takeSnapshot ⟨"", "", false, CaptureOutcome.raiseRuntime⟩
          ⟨[], false, false⟩ "2025-01-01").state.bots
        = (⟨[], false, false⟩ : SnapState).bots
      ∧ (takeSnapshot ⟨"", "", false, CaptureOutcome.raiseRuntime⟩
          ⟨[], false, false⟩ "2025-01-01").laterStagesRun = false
      ∧ (takeSnapshot ⟨"", "", false, CaptureOutcome.raiseRuntime⟩
          ⟨[], false, false⟩ "2025-01-01").state.lastSnapshotSet
        = (⟨[], false, false⟩ : SnapState).lastSnapshotSet
      ∧ ((takeSnapshot ⟨"", "", false, CaptureOutcome.raiseRuntime⟩
            ⟨[], false, false⟩ "2025-01-01").state.authRequired = true
          ∨ ((⟨"", "", false, CaptureOutcome.raiseRuntime⟩ : SnapEnv).capture
                = CaptureOutcome.raiseOther
            ∧ (takeSnapshot ⟨"", "", false, CaptureOutcome.raiseRuntime⟩
                ⟨[], false, false⟩ "2025-01-01").raised = true))) :=
  ⟨Or.inl rfl,
   fetch_failure_aborts ⟨"", "", false, CaptureOutcome.raiseRuntime⟩
     ⟨[], false, false⟩ "2025-01-01" (Or.inl rfl)⟩

/-- C8 (counterexample to the claim as stated): when the payload capture
raises an exception other than `RuntimeError` (e.g. an HTTP 500 re-raised by
`capture_payloads`), the cycle aborts with no store mutation — but the
auth-required/paused flag is NOT set before `take_snapshot` ends: the
`except RuntimeError` handler does not catch it, the exception propagates,
and the flag stays at the `False` written after the credential check. -/
theorem fetch_failure_flag_counterexample :
    (takeSnapshot ⟨"tok", "guest", true, CaptureOutcome.raiseOther⟩
        ⟨[], false, false⟩ "2025-01-01").state.authRequired = false
    ∧ (takeSnapshot ⟨"tok", "guest", true, CaptureOutcome.raiseOther⟩
        ⟨[], false, false⟩ "2025-01-01").raised = true
    ∧ (takeSnapshot ⟨"tok", "guest", true, CaptureOutcome.raiseOther⟩
        ⟨[], false, false⟩ "2025-01-01").state.bots = [] := by
  refine ⟨?_, ?_, ?_⟩ <;> decide

/-! ### Lemmas about the author map upserts -/

theorem upsertOne_forall (m : List MapEntry) (a bid : String)
    (fs : Option String) (now : String) (Q : MapEntry → Prop)
    (hm : ∀ e ∈ m, Q e)
    (hupd : ∀ e, Q e → Q { e with lastSeen := some now })
    (hnew : Q ⟨a, bid, fs, some now, none⟩) :
    ∀ e ∈ upsertOne m a bid fs now, Q e := by
  unfold upsertOne
  by_cases h : m.any (fun e => e.author == a && e.botId == bid) = true
  · rw [if_pos h]
    intro e he
    obtain ⟨x, hx, hxe⟩ := List.mem_map.mp he
    rw [← hxe]
    by_cases hc : (x.author == a && x.botId == bid) = true
    · rw [if_pos hc]
      exact hupd x (hm x hx)
    · rw [if_neg hc]
      exact hm x hx
  · rw [if_neg h]
    intro e he
    rcases List.mem_append.mp he with h' | h'
    · exact hm e h'
    · have : e = ⟨a, bid, fs, some now, none⟩ := by simpa using h'
      rw [this]
      exact hnew

theorem mem_upsertOne_self (m : List MapEntry) (a bid : String)
    (fs : Option String) (now : String) :
    ∃ e ∈ upsertOne m a bid fs now, e.author = a ∧ e.botId = bid := by
  unfold upsertOne
  by_cases h : m.any (fun e => e.author == a && e.botId == bid) = true
  · rw [if_pos h]
    obtain ⟨e, he, hpe⟩ := List.any_eq_true.mp h
    obtain ⟨hpa, hpb⟩ : e.author = a ∧ e.botId = bid := by simpa using hpe
    refine ⟨{ e with lastSeen := some now }, ?_, hpa, hpb⟩
    have himg :
        (fun e' => if e'.author == a && e'.botId == bid then
          { e' with lastSeen := some now } else e') e
          = { e with lastSeen := some now } := by
      simp [hpe]
    rw [← himg]
    exact List.mem_map_of_mem _ he
  · rw [if_neg h]
    exact ⟨⟨a, bid, fs, some now, none⟩, by simp, rfl, rfl⟩

theorem mem_upsertOne_pres (m : List MapEntry) (a' bid' : String)
    (fs : Option String) (now : String) (a c : String)
    (h : ∃ e ∈ m, e.author = a ∧ e.botId = c) :
    ∃ e ∈ upsertOne m a' bid' fs now, e.author = a ∧ e.botId = c := by
  obtain ⟨e, he, h1, h2⟩ := h
  unfold upsertOne
  by_cases hany : m.any (fun x => x.author == a' && x.botId == bid') = true
  · rw [if_pos hany]
    by_cases hc : (e.author == a' && e.botId == bid') = true
    · refine ⟨{ e with lastSeen := some now }, ?_, h1, h2⟩
      have himg :
          (fun e' => if e'.author == a' && e'.botId == bid' then
            { e' with lastSeen := some now } else e') e
            = { e with lastSeen := some now } := by
        simp [hc]
      rw [← himg]
      exact List.mem_map_of_mem _ he
    · refine ⟨e, ?_, h1, h2⟩
      have himg :
          (fun e' => if e'.author == a' && e'.botId == bid' then
            { e' with lastSeen := some now } else e') e = e := by
        simp [hc]
      rw [← himg]
      exact List.mem_map_of_mem _ he
  · rw [if_neg hany]
    exact ⟨e, List.mem_append_left _ he, h1, h2⟩

theorem upsertAuthorMap_forall (author : String) (fs : Option String)
    (now : String) (Q : MapEntry → Prop)
    (hupd : ∀ e, Q e → Q { e with lastSeen := some now })
    (hnew : ∀ bid : String, Q ⟨author, bid, fs, some now, none⟩) :
    ∀ (ids : List String) (m : List MapEntry), (∀ e ∈ m, Q e) →
      ∀ e ∈ upsertAuthorMap m author ids fs now, Q e
  | [], m, hm => hm
  | bid :: rest, m, hm => by
      have hstep := upsertOne_forall m author bid fs now Q hm hupd (hnew bid)
      exact upsertAuthorMap_forall author fs now Q hupd hnew rest
        (upsertOne m author bid fs now) hstep

theorem upsertAuthorMap_pres (author : String) (fs : Option String)
    (now : String) (a c : String) :
    ∀ (ids : List String) (m : List MapEntry),
      (∃ e ∈ m, e.author = a ∧ e.botId = c) →
      ∃ e ∈ upsertAuthorMap m author ids fs now, e.author = a ∧ e.botId = c
  | [], _, h => h
  | bid :: rest, m, h =>
      upsertAuthorMap_pres author fs now a c rest (upsertOne m author bid fs now)
        (mem_upsertOne_pres m author bid fs now a c h)

theorem upsertAuthorMap_mem (author : String) (fs : Option String)
    (now : String) :
    ∀ (ids : List String) (m : List MapEntry) (bid : String), bid ∈ ids →
      ∃ e ∈ upsertAuthorMap m author ids fs now, e.author = author ∧ e.botId = bid
  | [], _, _, h => absurd h (List.not_mem_nil _)
  | b0 :: rest, m, bid, h => by
      rcases List.mem_cons.mp h with h0 | h0
      · subst h0
        by_cases hr : bid ∈ rest
        · exact upsertAuthorMap_mem author fs now rest _ bid hr
        · exact upsertAuthorMap_pres author fs now author bid rest _
            (mem_upsertOne_self m author bid fs now)
      · exact upsertAuthorMap_mem author fs now rest _ bid h0

/-- C3 (claim): the first-ever refresh of a category — no prior
`author_bot_map` rows for the author — returns a discovered count of 0 and
inserts every fetched member with `first_seen_at = NULL` (baseline, not a
discovery event). -/
theorem baseline_non_discovery (m : List MapEntry) (author : String)
    (ids : List String) (now1 now2 : String)
    (ha : author ≠ "") (hids : ids ≠ [])
    (hbase : m.filter (fun e => e.author == author) = []) :
    (refreshSingleAuthorSnapshot m author ids now1 now2).2 = 0
    ∧ ∀ bid ∈ ids,
        ∃ e ∈ (refreshSingleAuthorSnapshot m author ids now1 now2).1,
          e.author = author ∧ e.botId = bid ∧ e.firstSeen = none := by
  have hex : authorExistingBotIds m author = [] := by
    unfold authorExistingBotIds
    rw [hbase]
    rfl
  have hres : refreshSingleAuthorSnapshot m author ids now1 now2
      = (upsertAuthorMap m author ids none now1, 0) := by
    unfold refreshSingleAuthorSnapshot
    rw [if_neg ha, if_neg hids]
    simp only [hex]
    rw [if_pos trivial]
  rw [hres]
  refine ⟨rfl, ?_⟩
  intro bid hbid
  have hQm : ∀ e ∈ m, (e.author = author → e.firstSeen = none) := by
    intro e he hea
    exfalso
    have : e ∈ m.filter (fun e' => e'.author == author) :=
      List.mem_filter.mpr ⟨he, by simp [hea]⟩
    rw [hbase] at this
    exact List.not_mem_nil e this
  have hQ : ∀ e ∈ upsertAuthorMap m author ids none now1,
      (e.author = author → e.firstSeen = none) :=
    upsertAuthorMap_forall author none now1 _
      (fun e hq hea => hq hea) (fun _ _ => rfl) ids m hQm
  obtain ⟨e, he, hea, heb⟩ := upsertAuthorMap_mem author none now1 ids m bid hbid
  exact ⟨e, he, hea, heb, hQ e he hea⟩

theorem baseline_non_discovery_witness :
    (refreshSingleAuthorSnapshot [⟨"b", "Z", some "t0", some "t0", none⟩]
        "a" ["A", "B", "C"] "t1" "t1").2 = 0
    ∧ ∀ bid ∈ ["A", "B", "C"],
        ∃ e ∈ (refreshSingleAuthorSnapshot [⟨"b", "Z", some "t0", some "t0", none⟩]
            "a" ["A", "B", "C"] "t1" "t1").1,
          e.author = "a" ∧ e.botId = bid ∧ e.firstSeen = none :=
  baseline_non_discovery [⟨"b", "Z", some "t0", some "t0", none⟩] "a"
    ["A", "B", "C"] "t1" "t1" (by decide) (by decide) (by decide)

/-- C1 (code bug, full evaluation at the failing input): category `a`
already knows `{A, B}`; a refresh fetching `{A, B, C}` returns a discovered
count of 1 and leaves A's and B's `first_seen_at` unchanged — but C's
`first_seen_at` is NULL, not the promised timestamp. The first
`_upsert_author_map(author, current_ids, first_seen_at=None)` call inserts C
with `first_seen_at = NULL`; the second call, meant to "set first_seen_at
for new ones", then hits the freshly inserted row and its
`ON CONFLICT(author, bot_id) DO UPDATE SET last_seen_at = excluded.last_seen_at`
clause updates only `last_seen_at`. A discovered bot therefore never counts
as unseen downstream (`first_seen_at IS NOT NULL` in
`/api/author-new-counts`). -/
theorem discovery_first_seen_bug :
    refreshSingleAuthorSnapshot
        [⟨"a", "A", none, some "t0", none⟩,
         ⟨"a", "B", some "t1", some "t0", none⟩]
        "a" ["A", "B", "C"] "t2" "t3"
      = ([⟨"a", "A", none, some "t2", none⟩,
          ⟨"a", "B", some "t1", some "t2", none⟩,
          ⟨"a", "C", none, some "t3", none⟩], 1)
    ∧ ((refreshSingleAuthorSnapshot
          [⟨"a", "A", none, some "t0", none⟩,
           ⟨"a", "B", some "t1", some "t0", none⟩]
          "a" ["A", "B", "C"] "t2" "t3").1.filter
        (fun e => e.botId == "C")).map (·.firstSeen) = [none] := by
  constructor
  · decide
  · decide

/-! ### Lemmas for the unseen-count claim -/

theorem countsUnseen_mark_false (e : MapEntry) (now : String) (hn : now ≠ "") :
    countsUnseen { e with seenAt := some now } = false := by
  unfold countsUnseen
  simp [hn]

theorem filter_length_map_le {α : Type} (f : α → α) (p : α → Bool) :
    ∀ l : List α, (∀ y ∈ l, p (f y) = true → p y = true) →
      ((l.map f).filter p).length ≤ (l.filter p).length
  | [], _ => le_refl 0
  | a :: l, h => by
      have ih := filter_length_map_le f p l
        (fun y hy => h y (List.mem_cons_of_mem _ hy))
      simp only [List.map_cons, List.filter_cons]
      cases hfa : p (f a) with
      | true =>
          rw [h a (List.mem_cons_self _ _) hfa]
          simpa using ih
      | false =>
          cases hpa : p a <;> simp <;> omega
  
theorem filter_length_map_lt {α : Type} (f : α → α) (p : α → Bool) :
    ∀ (l : List α) (x : α), x ∈ l → p x = true → p (f x) = false →
      (∀ y ∈ l, p (f y) = true → p y = true) →
      ((l.map f).filter p).length < (l.filter p).length
  | [], x, hx, _, _, _ => absurd hx (List.not_mem_nil x)
  | a :: l, x, hx, hpx, hpfx, h => by
      have hle := filter_length_map_le f p l
        (fun y hy => h y (List.mem_cons_of_mem _ hy))
      simp only [List.map_cons, List.filter_cons]
      rcases List.mem_cons.mp hx with h0 | h0
      · subst h0
        rw [hpfx, hpx]
        simp
        omega
      · have ih := filter_length_map_lt f p l x h0 hpx hpfx
          (fun y hy => h y (List.mem_cons_of_mem _ hy))
        cases hfa : p (f a) with
        | true =>
            rw [h a (List.mem_cons_self _ _) hfa]
            simpa using ih
        | false => cases hpa : p a <;> simp <;> omega

/-- C9 (claim): an entity with `first_seen_at` set and `seen_at` null (or
blank) counts toward its category's unseen total; after `mark_bot_seen` the
entity no longer satisfies the unseen predicate — the author's unseen count
strictly drops — while every row's `first_seen_at` is left untouched by the
acknowledgement. -/
theorem unseen_count_acknowledgement (m : List MapEntry) (e : MapEntry)
    (he : e ∈ m) (hf : e.firstSeen.isSome = true)
    (hs : e.seenAt = none ∨ e.seenAt = some "")
    (now : String) (hn : now ≠ "") (hb : e.botId ≠ "") :
    1 ≤ unseenCount m e.author
    ∧ unseenCount (markBotSeen m e.botId now) e.author < unseenCount m e.author
    ∧ (markBotSeen m e.botId now).map (·.firstSeen) = m.map (·.firstSeen) := by
  have hcu : countsUnseen e = true := by
    unfold countsUnseen
    rcases hs with h | h <;> simp [hf, h]
  have hpe : (e.author == e.author && countsUnseen e) = true := by simp [hcu]
  refine ⟨?_, ?_, ?_⟩
  · have hmem : e ∈ m.filter (fun x => x.author == e.author && countsUnseen x) :=
      List.mem_filter.mpr ⟨he, hpe⟩
    have hne : m.filter (fun x => x.author == e.author && countsUnseen x) ≠ [] :=
      List.ne_nil_of_mem hmem
    exact List.length_pos.mpr hne
  · unfold unseenCount markBotSeen
    rw [if_neg hb]
    apply filter_length_map_lt _ _ m e he hpe
    · simp [countsUnseen_mark_false e now hn]
    · intro y hy hpy
      by_cases hyb : (y.botId == e.botId) = true
      · exfalso
        simp [hyb, countsUnseen_mark_false y now hn] at hpy
      · simp only [hyb, if_false] at hpy
        simpa using hpy
  · unfold markBotSeen
    rw [if_neg hb, List.map_map]
    apply List.map_congr_left
    intro a _
    by_cases hab : (a.botId == e.botId) = true
    · simp [Function.comp, hab]
    · simp [Function.comp, hab]

theorem unseen_count_acknowledgement_witness :
    1 ≤ unseenCount [⟨"a", "C", some "t2", some "t2", none⟩] "a"
    ∧ unseenCount (markBotSeen [⟨"a", "C", some "t2", some "t2", none⟩] "C" "t4")
        "a" < unseenCount [⟨"a", "C", some "t2", some "t2", none⟩] "a"
    ∧ (markBotSeen [⟨"a", "C", some "t2", some "t2", none⟩] "C" "t4").map
        (·.firstSeen)
      = [(⟨"a", "C", some "t2", some "t2", none⟩ : MapEntry)].map (·.firstSeen) :=
  unseen_count_acknowledgement [⟨"a", "C", some "t2", some "t2", none⟩]
    ⟨"a", "C", some "t2", some "t2", none⟩ (by decide) (by decide)
    (Or.inl rfl) "t4" (by decide) (by decide)

/-! ### Lemmas about the ingest loop -/

theorem ingest_guard_eq_not_valid (d : Item) :
    (d.numMessages.isNone || decide (d.id = "")) = !(validItem d) := by
  unfold validItem
  cases d.numMessages <;> by_cases h : d.id = "" <;> simp [h]

theorem buildRowsAux_cons_invalid (stamp : String) (d : Item)
    (items : List Item) (seen : List String) (h : validItem d = false) :
    buildRowsAux stamp (d :: items) seen = buildRowsAux stamp items seen := by
  have hg : (d.numMessages.isNone || decide (d.id = "")) = true := by
    rw [ingest_guard_eq_not_valid, h]
    rfl
  simp only [buildRowsAux]
  rw [hg]
  simp

theorem buildRowsAux_cons_seen (stamp : String) (d : Item)
    (items : List Item) (seen : List String) (h : validItem d = true)
    (hs : seen.contains d.id = true) :
    buildRowsAux stamp (d :: items) seen = buildRowsAux stamp items seen := by
  have hg : (d.numMessages.isNone || decide (d.id = "")) = false := by
    rw [ingest_guard_eq_not_valid, h]
    rfl
  simp only [buildRowsAux]
  rw [hg, hs]
  simp

theorem buildRowsAux_cons_new (stamp : String) (d : Item)
    (items : List Item) (seen : List String) (h : validItem d = true)
    (hs : seen.contains d.id = false) :
    buildRowsAux stamp (d :: items) seen
      = mkRow stamp d :: buildRowsAux stamp items (d.id :: seen) := by
  have hg : (d.numMessages.isNone || decide (d.id = "")) = false := by
    rw [ingest_guard_eq_not_valid, h]
    rfl
  simp only [buildRowsAux]
  rw [hg, hs]
  simp

/-- Per-id characterisation of the ingest loop: with `seen` already
containing `x` the loop emits nothing for `x`; otherwise it emits exactly
the row built from the first valid item carrying id `x`, if any — later
duplicates and invalid items are dropped. -/
theorem buildRowsAux_filter_id (stamp x : String) :
    ∀ (items : List Item) (seen : List String),
      (buildRowsAux stamp items seen).filter (fun r => r.botId == x)
        = if seen.contains x = true then []
          else (((items.filter validItem).filter
              (fun q => q.id == x)).take 1).map (mkRow stamp)
  | [], seen => by
      cases h : seen.contains x <;> simp [buildRowsAux, h]
  | d :: items, seen => by
      by_cases hv : validItem d = true
      · by_cases hseen : seen.contains d.id = true
        · rw [buildRowsAux_cons_seen stamp d items seen hv hseen]
          rw [buildRowsAux_filter_id stamp x items seen]
          have hf : (d :: items).filter validItem
              = d :: items.filter validItem := by
            simp [List.filter_cons, hv]
          rw [hf]
          by_cases hdx : (d.id == x) = true
          · have hdx' : d.id = x := by simpa using hdx
            have hcx : seen.contains x = true := by
              rw [← hdx']
              exact hseen
            rw [if_pos hcx, if_pos hcx]
          · have hfd : (d :: items.filter validItem).filter
                (fun q => q.id == x)
                  = (items.filter validItem).filter (fun q => q.id == x) := by
              simp [List.filter_cons, hdx]
            rw [hfd]
        · have hseen' : seen.contains d.id = false := by simpa using hseen
          rw [buildRowsAux_cons_new stamp d items seen hv hseen']
          by_cases hdx : (d.id == x) = true
          · have hdx' : d.id = x := by simpa using hdx
            have hcx : seen.contains x = false := by
              rw [← hdx']
              exact hseen'
            have hpredd : ((mkRow stamp d).botId == x) = true := by
              simp [mkRow, hdx']
            have hLf : (mkRow stamp d
                  :: buildRowsAux stamp items (d.id :: seen)).filter
                    (fun r => r.botId == x)
                = mkRow stamp d
                    :: (buildRowsAux stamp items (d.id :: seen)).filter
                      (fun r => r.botId == x) := by
              simp [List.filter_cons, hpredd]
            rw [hLf]
            rw [buildRowsAux_filter_id stamp x items (d.id :: seen)]
            have hccons : ((d.id :: seen).contains x) = true := by
              rw [List.contains_cons]
              simp [hdx']
            rw [if_pos hccons]
            rw [if_neg (show ¬ seen.contains x = true by
              rw [hcx]
              exact Bool.false_ne_true)]
            have hf : (d :: items).filter validItem
                = d :: items.filter validItem := by
              simp [List.filter_cons, hv]
            rw [hf]
            have hfd : (d :: items.filter validItem).filter
                (fun q => q.id == x)
                  = d :: (items.filter validItem).filter
                      (fun q => q.id == x) := by
              simp [List.filter_cons, hdx]
            rw [hfd]
            simp
          · have hpredd : ((mkRow stamp d).botId == x) = false := by
              simp only [mkRow]
              simpa using hdx
            have hLf : (mkRow stamp d
                  :: buildRowsAux stamp items (d.id :: seen)).filter
                    (fun r => r.botId == x)
                = (buildRowsAux stamp items (d.id :: seen)).filter
                    (fun r => r.botId == x) := by
              simp [List.filter_cons, hpredd]
            rw [hLf]
            rw [buildRowsAux_filter_id stamp x items (d.id :: seen)]
            have hccons : ((d.id :: seen).contains x) = seen.contains x := by
              rw [List.contains_cons]
              have hxd : (x == d.id) = false := by
                simp only [beq_eq_false_iff_ne, ne_eq]
                intro h0
                exact hdx (by simp [h0])
              rw [hxd]
              simp
            rw [hccons]
            have hf : (d :: items).filter validItem
                = d :: items.filter validItem := by
              simp [List.filter_cons, hv]
            rw [hf]
            have hfd : (d :: items.filter validItem).filter
                (fun q => q.id == x)
                  = (items.filter validItem).filter (fun q => q.id == x) := by
              simp [List.filter_cons, hdx]
            rw [hfd]
      · have hv' : validItem d = false := by simpa using hv
        rw [buildRowsAux_cons_invalid stamp d items seen hv']
        rw [buildRowsAux_filter_id stamp x items seen]
        have hf : (d :: items).filter validItem = items.filter validItem := by
          simp [List.filter_cons, hv']
        rw [hf]

theorem buildRowsAux_not_seen (stamp : String) :
    ∀ (items : List Item) (seen : List String) (r : SnapRow),
      r ∈ buildRowsAux stamp items seen → seen.contains r.botId = false
  | [], _, r, h => absurd h (List.not_mem_nil r)
  | d :: items, seen, r, h => by
      by_cases hv : validItem d = true
      · by_cases hseen : seen.contains d.id = true
        · rw [buildRowsAux_cons_seen stamp d items seen hv hseen] at h
          exact buildRowsAux_not_seen stamp items seen r h
        · have hseen' : seen.contains d.id = false := by simpa using hseen
          rw [buildRowsAux_cons_new stamp d items seen hv hseen'] at h
          rcases List.mem_cons.mp h with h0 | h0
          · rw [h0]
            exact hseen'
          · have hrec := buildRowsAux_not_seen stamp items (d.id :: seen) r h0
            rw [List.contains_cons] at hrec
            obtain ⟨-, h2⟩ :
                (r.botId == d.id) = false ∧ seen.contains r.botId = false := by
              simpa using hrec
            exact h2
      · have hv' : validItem d = false := by simpa using hv
        rw [buildRowsAux_cons_invalid stamp d items seen hv'] at h
        exact buildRowsAux_not_seen stamp items seen r h

theorem buildRowsAux_pairwise (stamp : String) :
    ∀ (items : List Item) (seen : List String),
      (buildRowsAux stamp items seen).Pairwise (fun a b => a.botId ≠ b.botId)
  | [], _ => List.Pairwise.nil
  | d :: items, seen => by
      by_cases hv : validItem d = true
      · by_cases hseen : seen.contains d.id = true
        · rw [buildRowsAux_cons_seen stamp d items seen hv hseen]
          exact buildRowsAux_pairwise stamp items seen
      
        · have hseen' : seen.contains d.id = false := by simpa using hseen
          rw [buildRowsAux_cons_new stamp d items seen hv hseen']
          refine List.Pairwise.cons ?_ (buildRowsAux_pairwise stamp items (d.id :: seen))
          intro r hr
          have hrec := buildRowsAux_not_seen stamp items (d.id :: seen) r hr
          rw [List.contains_cons] at hrec
          obtain ⟨h1, -⟩ :
              (r.botId == d.id) = false ∧ seen.contains r.botId = false := by
            simpa using hrec
          have : r.botId ≠ d.id := by simpa using h1
          show (mkRow stamp d).botId ≠ r.botId
          simp only [mkRow]
          exact fun h0 => this (h0.symm)
      · have hv' : validItem d = false := by simpa using hv
        rw [buildRowsAux_cons_invalid stamp d items seen hv']
        exact buildRowsAux_pairwise stamp items seen

theorem buildRowsAux_dates (stamp : String) :
    ∀ (items : List Item) (seen : List String) (r : SnapRow),
      r ∈ buildRowsAux stamp items seen → r.date = stamp
  | [], _, r, h => absurd h (List.not_mem_nil r)
  | d :: items, seen, r, h => by
      by_cases hv : validItem d = true
      · by_cases hseen : seen.contains d.id = true
        · rw [buildRowsAux_cons_seen stamp d items seen hv hseen] at h
          exact buildRowsAux_dates stamp items seen r h
        · have hseen' : seen.contains d.id = false := by simpa using hseen
          rw [buildRowsAux_cons_new stamp d items seen hv hseen'] at h
          rcases List.mem_cons.mp h with h0 | h0
          · rw [h0]
            rfl
          · exact buildRowsAux_dates stamp items (d.id :: seen) r h0
      · have hv' : validItem d = false := by simpa using hv
        rw [buildRowsAux_cons_invalid stamp d items seen hv'] at h
        exact buildRowsAux_dates stamp items seen r h

/-- C10 (claim): the snapshot ingest writes at most one row per entity id
for the period — it keeps the first occurrence of each id in payload order,
silently drops later duplicates and items missing an id or message count,
stamps every row with the period — and therefore the `(date, bot_id)`
primary key of the `bots` table still holds after the period replace, for
any previously-consistent store and any duplicate-laden payload. -/
theorem ingest_dedup (stamp : String) (items : List Item) :
    (buildRows stamp items).Pairwise (fun a b => a.botId ≠ b.botId)
    ∧ (∀ r ∈ buildRows stamp items, r.date = stamp)
    ∧ (∀ x : String,
        (buildRows stamp items).filter (fun r => r.botId == x)
          = (((items.filter validItem).filter
              (fun q => q.id == x)).take 1).map (mkRow stamp))
    ∧ ∀ store : List SnapRow,
        (store.map snapKey).Nodup →
        ((replacePeriod store stamp (buildRows stamp items)).map snapKey).Nodup := by
  refine ⟨buildRowsAux_pairwise stamp items [], ?_, ?_, ?_⟩
  · exact buildRowsAux_dates stamp items []
  · intro x
    rw [buildRows, buildRowsAux_filter_id stamp x items []]
    rw [if_neg (show ¬ (([] : List String).contains x) = true by simp)]
  · intro store hnd
    unfold replacePeriod
    rw [List.map_append]
    have h1 : ((store.filter (fun r => !(r.date == stamp))).map snapKey).Nodup :=
      List.Nodup.sublist (List.Sublist.map snapKey (List.filter_sublist store)) hnd
    have h2 : ((buildRows stamp items).map snapKey).Nodup := by
      have hp := buildRowsAux_pairwise stamp items []
      have hmap : ((buildRows stamp items).map snapKey).Pairwise (· ≠ ·) := by
        refine List.Pairwise.map snapKey ?_ hp
        intro a b hab
        simp only [snapKey, ne_eq, Prod.mk.injEq, not_and]
        intro _ h0
        exact hab h0
      exact hmap
    refine List.Nodup.append h1 h2 ?_
    intro k hk1 hk2
    obtain ⟨r1, hr1, hk1e⟩ := List.mem_map.mp hk1
    obtain ⟨r2, hr2, hk2e⟩ := List.mem_map.mp hk2
    obtain ⟨-, hr1f⟩ := List.mem_filter.mp hr1
    have hd1 : r1.date ≠ stamp := by simpa using hr1f
    have hd2 : r2.date = stamp := buildRowsAux_dates stamp items [] r2 hr2
    apply hd1
    have : r1.date = k.1 := by rw [← hk1e]; rfl
    rw [this, ← hk2e]
    exact hd2

theorem ingest_dedup_witness :
    ((replacePeriod [⟨"p0", "Z", "n", "t", 1, "u", "c", "a"⟩] "p1"
        (buildRows "p1"
          [⟨some 5, "A", "n1", "t1", "u1", "c1", "a1"⟩,
           ⟨none, "B", "n2", "t2", "u2", "c2", "a2"⟩,
           ⟨some 7, "", "n3", "t3", "u3", "c3", "a3"⟩,
           ⟨some 9, "A", "n4", "t4", "u4", "c4", "a4"⟩,
           ⟨some 3, "B", "n5", "t5", "u5", "c5", "a5"⟩])).map snapKey).Nodup :=
  (ingest_dedup "p1"
    [⟨some 5, "A", "n1", "t1", "u1", "c1", "a1"⟩,
     ⟨none, "B", "n2", "t2", "u2", "c2", "a2"⟩,
     ⟨some 7, "", "n3", "t3", "u3", "c3", "a3"⟩,
     ⟨some 9, "A", "n4", "t4", "u4", "c4", "a4"⟩,
     ⟨some 3, "B", "n5", "t5", "u5", "c5", "a5"⟩]).2.2.2
    [⟨"p0", "Z", "n", "t", 1, "u", "c", "a"⟩] (by decide)
